import Mathlib

/-!
Verification of the manifest-repair and conversion-orchestration logic of the
LAS/LAZ to 3D Tiles converter (src/converter.py).

The development shallowly embeds the Python code:

* `PyVal` models dynamically typed JSON values as produced by `json.load`
  (arrays and dictionaries are encoded as cons chains of a single inductive
  type, mirroring the untyped nesting of the Python objects).
* `TilesDir` models the relevant filesystem state of the output directory:
  the parsed root manifest `tileset.json` and the set of files under the
  `points/` subdirectory together with their parsed contents.
* `rewrite_child_tileset_uris_if_needed` (Pass A) and
  `normalize_sub_tileset_uris_in_points` (Pass B) are translated from the
  functions of the same names in src/converter.py.
* `convert_las_to_3dtiles` models the orchestrator of the same name as a
  deterministic function from an environment (engine resolution results,
  engine exit code, conversion options) to an effect trace paired with a
  result, so that ordering of directory mutations, the engine run, the log
  write and the failure points can be stated.

Definitions whose doc comment says "Follows the spec" are spec-level
reformulations used on the right-hand side of refinement statements; all
other definitions are translated from the source.
-/

/-- Dynamically typed value, as produced by the Python `json` module.
Arrays and dictionaries are encoded as cons chains in the same type, which
matches the untyped nesting of the Python objects (`Dict[str, Any]`).
A chain cell that is not `listCons`/`listNil` (resp. `dictCons`/`dictNil`)
terminates the sequence; such values are not produced by `json.load` and are
left untouched by every traversal below, like any other non-list non-dict. -/
inductive PyVal where
  | null
  | boolV (b : Bool)
  | intV (n : Int)
  | strV (s : String)
  | listNil
  | listCons (hd tl : PyVal)
  | dictNil
  | dictCons (k : String) (v : PyVal) (tl : PyVal)
deriving DecidableEq

/-- Python `isinstance(x, dict)`. -/
def isDict : PyVal → Bool
  | PyVal.dictNil => true
  | PyVal.dictCons _ _ _ => true
  | _ => false

/-- Python `isinstance(x, list)`. -/
def isList : PyVal → Bool
  | PyVal.listNil => true
  | PyVal.listCons _ _ => true
  | _ => false

/-- Python `d.get(key)`: first binding of `key` in the dictionary chain,
`none` when the key is absent or the value is not a dictionary.
Dictionaries produced by `json.load` bind each key once. -/
def dGet : PyVal → String → Option PyVal
  | PyVal.dictCons k v rest, key => if k = key then some v else dGet rest key
  | _, _ => none

/-- Python item assignment `d[key] = nv`: replaces the first binding of
`key`, appends a new binding when the key is absent, and leaves any
non-dictionary value unchanged (the code only assigns to keys it has just
read, so the replacement branch is the one exercised). -/
def dSet : PyVal → String → PyVal → PyVal
  | PyVal.dictCons k v rest, key, nv =>
      if k = key then PyVal.dictCons k nv rest
      else PyVal.dictCons k v (dSet rest key nv)
  | PyVal.dictNil, key, nv => PyVal.dictCons key nv PyVal.dictNil
  | j, _, _ => j

/-- Character-list test: `p` is a leading segment of `s`. -/
def listStarts : List Char → List Char → Bool
  | _, [] => true
  | [], _ :: _ => false
  | a :: as, b :: bs => a = b && listStarts as bs

/-- Python `s.startswith(p)`. -/
def py_startswith (s p : String) : Bool := listStarts s.data p.data

/-- Python `s.endswith(p)`. -/
def py_endswith (s p : String) : Bool := listStarts s.data.reverse p.data.reverse

/-- Python `c in s` for a one-character needle `c`. -/
def py_contains (s : String) (c : Char) : Bool := s.data.contains c

/-- Python slice `s[n:]` (by character count). -/
def py_slice_from (s : String) (n : Nat) : String := String.mk (s.data.drop n)

/-- Python string concatenation `a + b`. -/
def py_concat (a b : String) : String := String.mk (a.data ++ b.data)

/-!
Generic manifest walk.

`walk` is the recursive `walk` procedure shared verbatim (up to the name of
the reference fixer) by `rewrite_child_tileset_uris_if_needed` and
`normalize_sub_tileset_uris_in_points` in src/converter.py:

    def walk(node):
        if not isinstance(node, dict): return
        content = node.get("content")
        if isinstance(content, dict): maybe_fix(content)
        contents = node.get("contents")
        if isinstance(contents, list):
            for c in contents:
                if isinstance(c, dict): maybe_fix(c)
        children = node.get("children")
        if isinstance(children, list):
            for child in children:
                if isinstance(child, dict): walk(child)

The mode flag selects between walking a node (`false`) and walking a
`children` array (`true`).  Because `json.load` dictionaries bind each key
once, looking the three keys up with `get` and then mutating in place is the
same as rewriting each binding according to its key, which is how the chain
encoding expresses it.  Both reference fixers return their argument
unchanged on non-dictionary input, so the `isinstance(..., dict)` guards in
front of the fixer calls are absorbed into the fixer. -/

/-- Iteration of the reference fixer over a `contents` array (non-dictionary
entries are left as they are by the fixer itself); a non-list value, which
the source leaves untouched, is returned unchanged. -/
def fixEntries (fix : PyVal → PyVal × Bool) : PyVal → PyVal × Bool
  | PyVal.listCons c cs =>
      let hd := fix c
      let tl := fixEntries fix cs
      (PyVal.listCons hd.1 tl.1, hd.2 || tl.2)
  | j => (j, false)

/-- The recursive walk; the returned Boolean is the accumulated `modified`
flag (set by the fixer whenever it rewrites a reference). -/
def walk (fix : PyVal → PyVal × Bool) : Bool → PyVal → PyVal × Bool
  | false, PyVal.dictCons k v rest =>
      let hd : PyVal × Bool :=
        if k = "content" then fix v
        else if k = "contents" then fixEntries fix v
        else if k = "children" then
          if isList v then walk fix true v else (v, false)
        else (v, false)
      let tl := walk fix false rest
      (PyVal.dictCons k hd.1 tl.1, hd.2 || tl.2)
  | false, j => (j, false)
  | true, PyVal.listCons c cs =>
      let hd := if isDict c then walk fix false c else (c, false)
      let tl := walk fix true cs
      (PyVal.listCons hd.1 tl.1, hd.2 || tl.2)
  | true, j => (j, false)

/-!
Filesystem state of the output directory, as far as the two repair passes
observe and mutate it.
-/

/-- State of the conversion output directory.

* `mainTileset`: parsed contents of `<output>/tileset.json`; `none` when the
  file is missing or cannot be opened or parsed (the source treats those
  cases identically: `return False`).
* `pointsDirExists`: `<output>/points` exists and is a directory.
* `pointsEntries`: the regular files living under `<output>/points`, keyed
  by their path relative to `points/` (direct children have no separator in
  the key, files of nested subdirectories do), each paired with its parsed
  JSON contents, `none` when the file is not readable as JSON.  Directories
  are not listed; the existence tests of the source
  (`candidate.exists() and candidate.is_file()`) are exactly membership of
  the relative path among these keys. -/
structure TilesDir where
  mainTileset : Option PyVal
  pointsDirExists : Bool
  pointsEntries : List (String × Option PyVal)
deriving DecidableEq

/-- Relative paths of the regular files under `points/`. -/
def pointsNames (d : TilesDir) : List String := d.pointsEntries.map Prod.fst

/-- The test `candidate.exists() and candidate.is_file()` for
`candidate = tiles_dir / "points" / rel`. -/
def fileExistsUnderPoints (d : TilesDir) (rel : String) : Bool :=
  d.pointsDirExists && (pointsNames d).contains rel

/-- The bare-name condition of Pass A, verbatim from the source:
`uri_val.startswith("tileset.") and uri_val.endswith(".json") and "/" not in uri_val`. -/
def isBareTilesetJsonName (u : String) : Bool :=
  py_startswith u "tileset." && py_endswith u ".json" && !(py_contains u '/')

/-- `maybe_fix_uri` of `rewrite_child_tileset_uris_if_needed`
(src/converter.py lines 84-99): on a dictionary whose `uri` value is a
string that is a bare `tileset.*.json` name, when the file of that name is
present under `points/`, replace the `uri` with the name preceded by
`points/` and set the modified flag. -/
def maybe_fix_uri (d : TilesDir) (j : PyVal) : PyVal × Bool :=
  if isDict j then
    match dGet j "uri" with
    | some (PyVal.strV u) =>
        if isBareTilesetJsonName u then
          if fileExistsUnderPoints d u then
            (dSet j "uri" (PyVal.strV (py_concat "points/" u)), true)
          else (j, false)
        else (j, false)
    | _ => (j, false)
  else (j, false)

/-- Pass A, `rewrite_child_tileset_uris_if_needed` (src/converter.py lines
61-131).  A missing or unparseable `tileset.json` is a no-op reported as not
modified; a parsed document that is not a dictionary makes `data.get("root")`
raise, which the source catches and reports as not modified; otherwise the
walk runs on the `root` value (with `{}`, on which the walk is a no-op,
substituted when the key is absent) and the file is rewritten exactly when
the walk set the modified flag. -/
def rewrite_child_tileset_uris_if_needed (d : TilesDir) : TilesDir × Bool :=
  match d.mainTileset with
  | none => (d, false)
  | some data =>
      if isDict data then
        match dGet data "root" with
        | some root =>
            let r := walk (maybe_fix_uri d) false root
            if r.2 then
              ({ d with mainTileset := some (dSet data "root" r.1) }, true)
            else (d, false)
        | none => (d, false)
      else (d, false)

/-- The set of file names matched by `points_dir.glob("tileset.*.json")`:
`*` matches any (possibly empty) run of characters other than the path
separator, so a name matches exactly when it starts with `tileset.`, what
follows those eight characters ends with `.json`, and the name contains no
separator (a name with a separator would not be a direct child). -/
def matches_tileset_glob (name : String) : Bool :=
  py_startswith name "tileset." && py_endswith (py_slice_from name 8) ".json"
    && !(py_contains name '/')

/-- `maybe_fix` of `normalize_sub_tileset_uris_in_points` (src/converter.py
lines 153-166): on a dictionary whose `uri` value is a string starting with
`points/`, when the stripped remainder exists as a file under `points/`,
replace the `uri` with the stripped remainder and set the modified flag. -/
def maybe_fix (d : TilesDir) (j : PyVal) : PyVal × Bool :=
  if isDict j then
    match dGet j "uri" with
    | some (PyVal.strV u) =>
        if py_startswith u "points/" then
          if fileExistsUnderPoints d (py_slice_from u 7) then
            (dSet j "uri" (PyVal.strV (py_slice_from u 7)), true)
          else (j, false)
        else (j, false)
    | _ => (j, false)
  else (j, false)

/-- `fix_uris_in_data` of `normalize_sub_tileset_uris_in_points`
(src/converter.py lines 150-189): run the walk on the `root` value of one
sub-tileset document and report whether anything was rewritten.  A document
that is not a dictionary makes `data.get("root")` raise, which the source
catches and reports as not modified. -/
def fix_uris_in_data (d : TilesDir) (data : PyVal) : PyVal × Bool :=
  if isDict data then
    match dGet data "root" with
    | some root =>
        let r := walk (maybe_fix d) false root
        (dSet data "root" r.1, r.2)
    | none => (data, false)
  else (data, false)

/-- Body of the `for ts_file in points_dir.glob("tileset.*.json")` loop of
Pass B, applied to one directory entry: an entry whose name does not match
the glob is not iterated at all; a matching entry whose contents do not
parse is skipped by the `except ...: continue`; otherwise the document is
repaired and, when the repair modified it, written back and counted. -/
def pass_b_entry_step (d : TilesDir) (e : String × Option PyVal) :
    (String × Option PyVal) × Nat :=
  if matches_tileset_glob e.1 then
    match e.2 with
    | some data =>
        let r := fix_uris_in_data d data
        if r.2 then ((e.1, some r.1), 1) else (e, 0)
    | none => (e, 0)
  else (e, 0)

/-- Pass B, `normalize_sub_tileset_uris_in_points` (src/converter.py lines
134-206).  When `points/` is missing or not a directory the pass is a no-op
returning 0.  Otherwise every matching file is processed independently; the
existence set consulted by the repairs is the set of file names, which the
pass never changes, so the loop is the entrywise map of
`pass_b_entry_step` with the modified-file counts summed. -/
def normalize_sub_tileset_uris_in_points (d : TilesDir) : TilesDir × Nat :=
  if d.pointsDirExists then
    let results := d.pointsEntries.map (pass_b_entry_step d)
    ({ d with pointsEntries := results.map Prod.fst },
      (results.map Prod.snd).sum)
  else (d, 0)

/-!
Orchestrator model.

`convert_las_to_3dtiles` (src/converter.py lines 209-315) is modeled as a
deterministic function from an environment describing the outcome of every
external interaction to the trace of effects the run performs on the world,
paired with its result.  The trace records, in program order, the mutations
of the output directory, the input-side decompression write, the engine
invocation and the two repair calls; this is what the ordering and
error-classification claims are about.
-/

/-- Effects performed by one conversion run, in program order.

* `mkdirOutput`: `output_dir.mkdir(parents=True, exist_ok=True)`.
* `rmtreeOutput`: `shutil.rmtree(output_dir)` (overwrite branch).
* `uncompressInput`: successful write of the sibling `.las` file next to the
  input (not under the output directory).
* `runEngine cmd`: `subprocess.run(cmd, ...)`.
* `writeLog text`: `(output_dir / "tiles_log.txt").write_text(text)`.
* `repairA`, `repairB`: the calls to `rewrite_child_tileset_uris_if_needed`
  and `normalize_sub_tileset_uris_in_points`. -/
inductive Eff where
  | mkdirOutput
  | rmtreeOutput
  | uncompressInput
  | runEngine (cmd : List String)
  | writeLog (text : String)
  | repairA
  | repairB
deriving DecidableEq

/-- The fatal error kinds raised by `convert_las_to_3dtiles` (all raised as
`RuntimeError` in the source, distinguished by their messages). -/
inductive ConvErr where
  | toolNotFound
  | engineFailed (returncode : Int)
  | missingOutput
deriving DecidableEq

/-- The `RuntimeError` message attached to each fatal error kind, verbatim
from src/converter.py lines 57, 301 and 305. -/
def err_message : ConvErr → String
  | ConvErr.toolNotFound => "py3dtiles not found in venv or PATH"
  | ConvErr.engineFailed code =>
      py_concat
        (py_concat "tiles conversion (py3dtiles) failed with exit code "
          (toString code))
        "; see tiles_log.txt"
  | ConvErr.missingOutput => "tiles conversion did not produce tileset.json"

/-- Python truthiness of an `Optional[str]`: `None` and the empty string are
falsy, every other string is truthy. -/
def py_truthy : Option String → Bool
  | none => false
  | some s => if s = "" then false else true

/-- Environment of one `convert_las_to_3dtiles` run: the conversion request
together with the outcome of every interaction with the world outside the
function (filesystem probes, the CRS parse, the engine process). -/
structure Env where
  outputDir : String
  inputPath : String
  lasSibling : String
  inputIsLaz : Bool
  uncompressOk : Bool
  hasCrsMeta : Bool
  exeAdjacent : Bool
  exeAdjacentPath : String
  exeOnPath : Bool
  exeWhichPath : String
  srs_out : Option String
  extra_fields : Option String
  overwrite : Bool
  engineExit : Int
  engineOutput : String
  producesTileset : Bool
  repairARaises : Bool
  repairBRaises : Bool

/-- Construction of the engine argument vector (src/converter.py lines
266-290): mandatory subcommand and output flag; the coordinate-transform
flag with the requested CRS followed by the axis-order flag exactly when CRS
metadata was detected and the requested output CRS is truthy; the
extra-fields flag when requested; the input path as final positional
argument. -/
def build_py3dtiles_cmd (exe outDir : String) (has_crs : Bool)
    (srs extra : Option String) (tilesInput : String) : List String :=
  let cmd0 := [exe, "convert", "--out", outDir]
  let cmd1 :=
    if has_crs && py_truthy srs then
      cmd0 ++ ["--srs_out", srs.getD ""] ++ ["--pyproj-always-xy"]
    else cmd0
  let cmd2 :=
    if py_truthy extra then cmd1 ++ ["--extra-fields", extra.getD ""]
    else cmd1
  cmd2 ++ [tilesInput]

/-- The engine executable path `convert_las_to_3dtiles` ends up using when
resolution succeeds: the interpreter-adjacent candidate when it exists,
otherwise the `PATH` lookup result. -/
def resolvedExe (e : Env) : String :=
  if e.exeAdjacent then e.exeAdjacentPath else e.exeWhichPath

/-- The input path handed to the engine: the `.las` sibling when the input
is a `.laz` file and decompression succeeded, otherwise the original input
(src/converter.py lines 242-249). -/
def tilesInputOf (e : Env) : String :=
  if e.inputIsLaz && e.uncompressOk then e.lasSibling else e.inputPath

/-- The effects `convert_las_to_3dtiles` performs before attempting to
resolve the engine executable: ensure the output directory exists; when
overwrite is requested, remove it and recreate it empty; then attempt the
input decompression (CRS detection only reads). -/
def preResolveTrace (e : Env) : List Eff :=
  [Eff.mkdirOutput]
    ++ (if e.overwrite then [Eff.rmtreeOutput, Eff.mkdirOutput] else [])
    ++ (if e.inputIsLaz && e.uncompressOk then [Eff.uncompressInput] else [])

/-- Orchestrator `convert_las_to_3dtiles` (src/converter.py lines 209-315),
as trace plus result.  Program order: create the output directory; on
overwrite, remove and recreate it; decompress a `.laz` input (failure falls
back to the original file); detect CRS (pure read); resolve the engine
executable, raising the tool-not-found error when neither candidate
resolves; build the command and run the engine; write the combined output
to the log file; classify a nonzero exit code, then a missing root
manifest; run Pass A then Pass B inside a try block whose failures are
swallowed (a failure in Pass A skips Pass B); return the root manifest
path. -/
def convert_las_to_3dtiles (e : Env) : List Eff × Except ConvErr String :=
  let t0 := preResolveTrace e
  if e.exeAdjacent || e.exeOnPath then
    let cmd := build_py3dtiles_cmd (resolvedExe e) e.outputDir e.hasCrsMeta
      e.srs_out e.extra_fields (tilesInputOf e)
    let t1 := t0 ++ [Eff.runEngine cmd] ++ [Eff.writeLog e.engineOutput]
    if e.engineExit = 0 then
      if e.producesTileset then
        let t2 := t1 ++ [Eff.repairA]
        let t3 := if e.repairARaises then t2 else t2 ++ [Eff.repairB]
        (t3, Except.ok (py_concat e.outputDir "/tileset.json"))
      else (t1, Except.error ConvErr.missingOutput)
    else (t1, Except.error (ConvErr.engineFailed e.engineExit))
  else (t0, Except.error ConvErr.toolNotFound)

/-!
Spec-level reformulations.  The definitions in this section follow the
words of the specification and are used on the right-hand side of the
refinement statements below; they are not translations of source code.
-/

/-- Follows the spec: some entry of a `contents` array satisfies `hit`. -/
def anyEntries (hit : PyVal → Bool) : PyVal → Bool
  | PyVal.listCons c cs => hit c || anyEntries hit cs
  | _ => false

/-- Follows the spec: recursively walking every node member `content` /
`contents` entry and every `children` node, some reference site satisfies
`hit`.  The mode flag selects between a node (`false`) and a `children`
array (`true`), as in `walk`. -/
def anyRefSite (hit : PyVal → Bool) : Bool → PyVal → Bool
  | false, PyVal.dictCons k v rest =>
      (if k = "content" then hit v
       else if k = "contents" then anyEntries hit v
       else if k = "children" then
         if isList v then anyRefSite hit true v else false
       else false) || anyRefSite hit false rest
  | false, _ => false
  | true, PyVal.listCons c cs =>
      (if isDict c then anyRefSite hit false c else false) || anyRefSite hit true cs
  | true, _ => false

/-- Follows the spec: a reference object that Pass A must rewrite — its
`uri` is a string matching the bare-name pattern and a file of that name is
present under `points/`. -/
def spec_rewritable_ref_a (d : TilesDir) (j : PyVal) : Bool :=
  if isDict j then
    match dGet j "uri" with
    | some (PyVal.strV u) => isBareTilesetJsonName u && fileExistsUnderPoints d u
    | _ => false
  else false

/-- Follows the spec: a reference object that Pass B must rewrite — its
`uri` is a string starting with `points/` whose stripped remainder exists as
a file under `points/`. -/
def spec_strippable_ref_b (d : TilesDir) (j : PyVal) : Bool :=
  if isDict j then
    match dGet j "uri" with
    | some (PyVal.strV u) =>
        py_startswith u "points/" && fileExistsUnderPoints d (py_slice_from u 7)
    | _ => false
  else false

/-- Follows the spec: a manifest document contains, on its walked reference
sites, at least one reference Pass A must rewrite. -/
def spec_manifest_rewritable_a (d : TilesDir) (data : PyVal) : Bool :=
  if isDict data then
    match dGet data "root" with
    | some root => anyRefSite (spec_rewritable_ref_a d) false root
    | none => false
  else false

/-- Follows the spec: the root manifest is present, parses and contains at
least one reference Pass A must rewrite. -/
def spec_main_manifest_rewritable (d : TilesDir) : Bool :=
  match d.mainTileset with
  | some data => spec_manifest_rewritable_a d data
  | none => false

/-- Follows the spec: a sub-tileset document contains at least one reference
Pass B must rewrite. -/
def spec_manifest_strippable_b (d : TilesDir) (data : PyVal) : Bool :=
  if isDict data then
    match dGet data "root" with
    | some root => anyRefSite (spec_strippable_ref_b d) false root
    | none => false
  else false

/-- Follows the spec: the number of auxiliary manifest files that Pass B
modifies — those directly under `points/` whose name matches the glob, that
parse, and that contain at least one rewritable reference. -/
def spec_pass_b_modified_count (d : TilesDir) : Nat :=
  (d.pointsEntries.map (fun e =>
    if matches_tileset_glob e.1 then
      match e.2 with
      | some data => if spec_manifest_strippable_b d data then 1 else 0
      | none => 0
    else 0)).sum

/-!
Concrete sample states used by the witnesses and counterexamples below.
-/

/-- A reference object `{"uri": u}`. -/
def refWithUri (u : String) : PyVal :=
  PyVal.dictCons "uri" (PyVal.strV u) PyVal.dictNil

/-- A minimal manifest document `{"root": {"content": {"uri": u}}}`. -/
def manifestWithRef (u : String) : PyVal :=
  PyVal.dictCons "root"
    (PyVal.dictCons "content" (refWithUri u) PyVal.dictNil)
    PyVal.dictNil

/-- Output directory whose root manifest references `tileset.1.json` by bare
name while the file lives under `points/`. -/
def dirWithTileset1 : TilesDir :=
  TilesDir.mk (some (manifestWithRef "tileset.1.json")) true [("tileset.1.json", none)]

/-- Output directory whose root manifest references `tileset.abc.json`, a
name with a non-integer between the two dots, with the file present under
`points/`. -/
def dirWithTilesetAbc : TilesDir :=
  TilesDir.mk (some (manifestWithRef "tileset.abc.json")) true [("tileset.abc.json", none)]

/-- Output directory holding an auxiliary manifest named `tileset.abc.json`
under `points/` whose reference carries a redundant `points/` path
component, together with the referenced payload file. -/
def abcPointsDir : TilesDir :=
  TilesDir.mk none true
    [("tileset.abc.json", some (manifestWithRef "points/tile_7.pnts")),
     ("tile_7.pnts", none)]

/-- Output directory whose `points/` folder holds a nested `points/`
subdirectory: the auxiliary manifest references `points/points/a.pnts`, and
files exist both at `points/points/a.pnts` and at `points/a.pnts`. -/
def nestedPointsDir : TilesDir :=
  TilesDir.mk none true
    [("tileset.1.json", some (manifestWithRef "points/points/a.pnts")),
     ("a.pnts", none),
     ("points/a.pnts", none)]

/-- A conversion environment in which everything succeeds. -/
def baseEnv : Env :=
  Env.mk "/out" "/in/cloud.las" "/in/cloud.las" false true true
    true "/venv/bin/py3dtiles" false "/usr/bin/py3dtiles"
    (some "4978") none false 0 "engine output" true false false

/-- The base environment with the engine executable unresolvable and
overwrite requested. -/
def noToolEnv : Env :=
  Env.mk "/out" "/in/cloud.las" "/in/cloud.las" false true true
    false "/venv/bin/py3dtiles" false "/usr/bin/py3dtiles"
    (some "4978") none true 0 "engine output" true false false

/-- The base environment with the repair stage raising. -/
def raisingRepairEnv : Env :=
  Env.mk "/out" "/in/cloud.las" "/in/cloud.las" false true true
    true "/venv/bin/py3dtiles" false "/usr/bin/py3dtiles"
    (some "4978") none false 0 "engine output" true true true

/-!
Helper lemmas about the dictionary and string primitives.
-/

theorem dGet_dSet_self (j : PyVal) (key : String) (w nv : PyVal)
    (h : dGet j key = some w) : dGet (dSet j key nv) key = some nv := by
  induction j with
  | dictCons k v rest ihv ihrest =>
      by_cases hk : k = key
      · subst hk; simp [dGet, dSet] at h ⊢
      · simp [dGet, dSet, hk] at h ⊢
        exact ihrest h
  | _ => simp [dGet] at h

theorem isDict_dSet (j : PyVal) (key : String) (nv : PyVal) :
    isDict (dSet j key nv) = isDict j := by
  induction j with
  | dictCons k v rest ih =>
      by_cases hk : k = key <;> simp [dSet, hk, isDict]
  | dictNil => simp [dSet, isDict]
  | _ => simp [dSet, isDict]

theorem isList_dSet (j : PyVal) (key : String) (nv : PyVal) :
    isList (dSet j key nv) = isList j := by
  induction j with
  | dictCons k v rest ih =>
      by_cases hk : k = key <;> simp [dSet, hk, isList]
  | dictNil => simp [dSet, isList]
  | _ => simp [dSet, isList]

theorem listStarts_append_self (p x : List Char) :
    listStarts (p ++ x) p = true := by
  induction p with
  | nil => cases x <;> simp [listStarts]
  | cons a as ih => simp [listStarts, ih]

theorem py_startswith_concat_self (p x : String) :
    py_startswith (py_concat p x) p = true := by
  simp [py_startswith, py_concat, listStarts_append_self]

theorem py_contains_concat_left (a b : String) (c : Char)
    (h : py_contains a c = true) : py_contains (py_concat a b) c = true := by
  simp only [py_contains, py_concat] at h ⊢
  simp only [List.contains, List.elem_eq_mem, decide_eq_true_eq, List.mem_append] at h ⊢
  exact Or.inl h

theorem py_slice_from_concat (a b : String) :
    py_slice_from (py_concat a b) a.data.length = b := by
  simp only [py_slice_from, py_concat]
  rw [List.drop_left]

/-!
Generic properties of the walk.
-/

theorem fixEntries_not_modified (fix : PyVal → PyVal × Bool)
    (hfix : ∀ j, (fix j).2 = false → (fix j).1 = j) :
    ∀ j, (fixEntries fix j).2 = false → (fixEntries fix j).1 = j := by
  intro j
  induction j with
  | listCons c cs ihc ihcs =>
      simp only [fixEntries]
      intro h
      rcases Bool.or_eq_false_iff.mp h with ⟨h1, h2⟩
      simp [hfix c h1, ihcs h2]
  | _ => intro _; rfl

theorem walk_not_modified (fix : PyVal → PyVal × Bool)
    (hfix : ∀ j, (fix j).2 = false → (fix j).1 = j) :
    ∀ m j, (walk fix m j).2 = false → (walk fix m j).1 = j := by
  intro m j
  induction j generalizing m with
  | dictCons k v rest ihv ihrest =>
      cases m with
      | true => intro _; rfl
      | false =>
          simp only [walk]
          intro h
          rcases Bool.or_eq_false_iff.mp h with ⟨h1, h2⟩
          have hrest := ihrest false h2
          by_cases hk1 : k = "content"
          · simp only [hk1, if_pos] at h1 ⊢
            simp [hfix v h1, hrest]
          · by_cases hk2 : k = "contents"
            · simp only [hk1, hk2, if_neg, if_pos, ite_true, ite_false] at h1 ⊢
              simp [fixEntries_not_modified fix hfix v h1, hrest]
            · by_cases hk3 : k = "children"
              · simp only [hk1, hk2, hk3, ite_true, ite_false] at h1 ⊢
                by_cases hl : isList v
                · simp only [hl, ite_true] at h1 ⊢
                  simp [ihv true h1, hrest]
                · simp only [hl, ite_false] at h1 ⊢
                  simp [hrest]
              · simp only [hk1, hk2, hk3, ite_false] at h1 ⊢
                simp [hrest]
  | listCons c cs ihc ihcs =>
      cases m with
      | false => intro _; rfl
      | true =>
          simp only [walk]
          intro h
          rcases Bool.or_eq_false_iff.mp h with ⟨h1, h2⟩
          have hcs := ihcs true h2
          by_cases hc : isDict c
          · simp only [hc, ite_true] at h1 ⊢
            simp [ihc false h1, hcs]
          · simp only [hc, ite_false] at h1 ⊢
            simp [hcs]
  | _ => cases m <;> (intro _; rfl)

theorem fixEntries_flag (fix : PyVal → PyVal × Bool) (hit : PyVal → Bool)
    (hfix : ∀ j, (fix j).2 = hit j) :
    ∀ j, (fixEntries fix j).2 = anyEntries hit j := by
  intro j
  induction j with
  | listCons c cs ihc ihcs =>
      simp only [fixEntries, anyEntries]
      simp [hfix c, ihcs]
  | _ => rfl

theorem walk_flag (fix : PyVal → PyVal × Bool) (hit : PyVal → Bool)
    (hfix : ∀ j, (fix j).2 = hit j) :
    ∀ m j, (walk fix m j).2 = anyRefSite hit m j := by
  intro m j
  induction j generalizing m with
  | dictCons k v rest ihv ihrest =>
      cases m with
      | true => rfl
      | false =>
          simp only [walk, anyRefSite]
          rw [ihrest false]
          by_cases hk1 : k = "content"
          · simp [hk1, hfix v]
          · by_cases hk2 : k = "contents"
            · simp [hk1, hk2, fixEntries_flag fix hit hfix v]
            · by_cases hk3 : k = "children"
              · by_cases hl : isList v
                · simp [hk1, hk2, hk3, hl, ihv true]
                · simp [hk1, hk2, hk3, hl]
              · simp [hk1, hk2, hk3]
  | listCons c cs ihc ihcs =>
      cases m with
      | false => rfl
      | true =>
          simp only [walk, anyRefSite]
          rw [ihcs true]
          by_cases hc : isDict c
          · simp [hc, ihc false]
          · simp [hc]
  | _ => cases m <;> rfl

theorem isDict_walk (fix : PyVal → PyVal × Bool) (m : Bool) (j : PyVal) :
    isDict (walk fix m j).1 = isDict j := by
  cases m <;> cases j <;> simp [walk, isDict]

theorem isList_walk (fix : PyVal → PyVal × Bool) (m : Bool) (j : PyVal) :
    isList (walk fix m j).1 = isList j := by
  cases m <;> cases j <;> simp [walk, isList]

theorem fixEntries_idem (fix : PyVal → PyVal × Bool)
    (hfix : ∀ j, fix ((fix j).1) = ((fix j).1, false)) :
    ∀ j, fixEntries fix ((fixEntries fix j).1) = ((fixEntries fix j).1, false) := by
  intro j
  induction j with
  | listCons c cs ihc ihcs =>
      simp only [fixEntries]
      simp [hfix c, ihcs]
  | _ => rfl

theorem walk_idem (fix : PyVal → PyVal × Bool)
    (hfix : ∀ j, fix ((fix j).1) = ((fix j).1, false)) :
    ∀ m j, walk fix m ((walk fix m j).1) = ((walk fix m j).1, false) := by
  intro m j
  induction j generalizing m with
  | dictCons k v rest ihv ihrest =>
      cases m with
      | true => rfl
      | false =>
          simp only [walk]
          by_cases hk1 : k = "content"
          · simp [hk1, hfix v, ihrest false]
          · by_cases hk2 : k = "contents"
            · simp [hk1, hk2, fixEntries_idem fix hfix v, ihrest false]
            · by_cases hk3 : k = "children"
              · by_cases hl : isList v
                · have hl2 : isList (walk fix true v).1 = true := by
                    rw [isList_walk]; exact hl
                  simp [hk1, hk2, hk3, hl, hl2, ihv true, ihrest false]
                · have hl2 : isList v = false := by
                    simpa using hl
                  simp [hk1, hk2, hk3, hl2, ihrest false]
              · simp [hk1, hk2, hk3, ihrest false]
  | listCons c cs ihc ihcs =>
      cases m with
      | false => rfl
      | true =>
          simp only [walk]
          by_cases hc : isDict c
          · have hc2 : isDict (walk fix false c).1 = true := by
              rw [isDict_walk]; exact hc
            simp [hc, hc2, ihc false, ihcs true]
          · have hc2 : isDict c = false := by simpa using hc
            simp [hc2, ihcs true]
  | _ => cases m <;> rfl


/-!
Properties of the two reference fixers.
-/

theorem py_contains_points_slash (u : String) :
    py_contains (py_concat "points/" u) '/' = true := by
  apply py_contains_concat_left
  decide

theorem maybe_fix_uri_flag (d : TilesDir) (j : PyVal) :
    (maybe_fix_uri d j).2 = spec_rewritable_ref_a d j := by
  unfold maybe_fix_uri spec_rewritable_ref_a
  by_cases hd : isDict j
  · simp only [hd, ite_true]
    cases hu : dGet j "uri" with
    | none => rfl
    | some u =>
        cases u with
        | strV s =>
            by_cases hb : isBareTilesetJsonName s <;>
              by_cases he : fileExistsUnderPoints d s <;> simp [hb, he]
        | null => rfl
        | boolV b => rfl
        | intV n => rfl
        | listNil => rfl
        | listCons a b => rfl
        | dictNil => rfl
        | dictCons k v t => rfl
  · simp [hd]

theorem maybe_fix_uri_of_not_rewritable (d : TilesDir) (j : PyVal)
    (h : spec_rewritable_ref_a d j = false) : maybe_fix_uri d j = (j, false) := by
  unfold spec_rewritable_ref_a at h
  unfold maybe_fix_uri
  by_cases hd : isDict j
  · simp only [hd, ite_true] at h ⊢
    cases hu : dGet j "uri" with
    | none => rfl
    | some u =>
        rw [hu] at h
        cases u with
        | strV s =>
            rw [Bool.and_eq_false_iff] at h
            rcases h with h | h <;> simp [h]
        | null => rfl
        | boolV b => rfl
        | intV n => rfl
        | listNil => rfl
        | listCons a b => rfl
        | dictNil => rfl
        | dictCons k v t => rfl
  · simp [hd]

theorem maybe_fix_uri_of_rewritable (d : TilesDir) (j : PyVal)
    (h : spec_rewritable_ref_a d j = true) :
    ∃ u, dGet j "uri" = some (PyVal.strV u) ∧ isBareTilesetJsonName u = true ∧
      fileExistsUnderPoints d u = true ∧
      maybe_fix_uri d j = (dSet j "uri" (PyVal.strV (py_concat "points/" u)), true) := by
  unfold spec_rewritable_ref_a at h
  by_cases hd : isDict j
  · simp only [hd, ite_true] at h
    cases hu : dGet j "uri" with
    | none => rw [hu] at h; exact absurd h (by simp)
    | some u =>
        rw [hu] at h
        cases u with
        | strV s =>
            rw [Bool.and_eq_true] at h
            refine ⟨s, rfl, h.1, h.2, ?_⟩
            unfold maybe_fix_uri
            simp [hd, hu, h.1, h.2]
        | null => exact absurd h (by simp)
        | boolV b => exact absurd h (by simp)
        | intV n => exact absurd h (by simp)
        | listNil => exact absurd h (by simp)
        | listCons a b => exact absurd h (by simp)
        | dictNil => exact absurd h (by simp)
        | dictCons k v t => exact absurd h (by simp)
  · simp [hd] at h

theorem rewritable_after_fix (d : TilesDir) (j : PyVal) :
    spec_rewritable_ref_a d ((maybe_fix_uri d j).1) = false := by
  by_cases hr : spec_rewritable_ref_a d j = true
  · rcases maybe_fix_uri_of_rewritable d j hr with ⟨u, hu, _, _, hfix⟩
    rw [hfix]
    unfold spec_rewritable_ref_a
    have hset : isDict (dSet j "uri" (PyVal.strV (py_concat "points/" u))) = isDict j :=
      isDict_dSet j "uri" _
    have hget : dGet (dSet j "uri" (PyVal.strV (py_concat "points/" u))) "uri"
        = some (PyVal.strV (py_concat "points/" u)) := dGet_dSet_self j "uri" _ _ hu
    have hbare : isBareTilesetJsonName (py_concat "points/" u) = false := by
      unfold isBareTilesetJsonName
      simp [py_contains_points_slash]
    by_cases hd : isDict j <;> simp [hset, hd, hget, hbare]
  · rw [Bool.not_eq_true] at hr
    rw [maybe_fix_uri_of_not_rewritable d j hr]
    exact hr

theorem maybe_fix_uri_idem (d : TilesDir) (j : PyVal) :
    maybe_fix_uri d ((maybe_fix_uri d j).1) = ((maybe_fix_uri d j).1, false) :=
  maybe_fix_uri_of_not_rewritable d _ (rewritable_after_fix d j)

theorem maybe_fix_flag (d : TilesDir) (j : PyVal) :
    (maybe_fix d j).2 = spec_strippable_ref_b d j := by
  unfold maybe_fix spec_strippable_ref_b
  by_cases hd : isDict j
  · simp only [hd, ite_true]
    cases hu : dGet j "uri" with
    | none => rfl
    | some u =>
        cases u with
        | strV s =>
            by_cases hb : py_startswith s "points/" <;>
              by_cases he : fileExistsUnderPoints d (py_slice_from s 7) <;> simp [hb, he]
        | null => rfl
        | boolV b => rfl
        | intV n => rfl
        | listNil => rfl
        | listCons a b => rfl
        | dictNil => rfl
        | dictCons k v t => rfl
  · simp [hd]

theorem maybe_fix_of_not_strippable (d : TilesDir) (j : PyVal)
    (h : spec_strippable_ref_b d j = false) : maybe_fix d j = (j, false) := by
  unfold spec_strippable_ref_b at h
  unfold maybe_fix
  by_cases hd : isDict j
  · simp only [hd, ite_true] at h ⊢
    cases hu : dGet j "uri" with
    | none => rfl
    | some u =>
        rw [hu] at h
        cases u with
        | strV s =>
            rw [Bool.and_eq_false_iff] at h
            rcases h with h | h <;> simp [h]
        | null => rfl
        | boolV b => rfl
        | intV n => rfl
        | listNil => rfl
        | listCons a b => rfl
        | dictNil => rfl
        | dictCons k v t => rfl
  · simp [hd]

theorem maybe_fix_of_strippable (d : TilesDir) (j : PyVal)
    (h : spec_strippable_ref_b d j = true) :
    ∃ u, dGet j "uri" = some (PyVal.strV u) ∧ py_startswith u "points/" = true ∧
      fileExistsUnderPoints d (py_slice_from u 7) = true ∧
      maybe_fix d j = (dSet j "uri" (PyVal.strV (py_slice_from u 7)), true) := by
  unfold spec_strippable_ref_b at h
  by_cases hd : isDict j
  · simp only [hd, ite_true] at h
    cases hu : dGet j "uri" with
    | none => rw [hu] at h; exact absurd h (by simp)
    | some u =>
        rw [hu] at h
        cases u with
        | strV s =>
            rw [Bool.and_eq_true] at h
            refine ⟨s, rfl, h.1, h.2, ?_⟩
            unfold maybe_fix
            simp [hd, hu, h.1, h.2]
        | null => exact absurd h (by simp)
        | boolV b => exact absurd h (by simp)
        | intV n => exact absurd h (by simp)
        | listNil => exact absurd h (by simp)
        | listCons a b => exact absurd h (by simp)
        | dictNil => exact absurd h (by simp)
        | dictCons k v t => exact absurd h (by simp)
  · simp [hd] at h

/-- When no file under `points/` has a relative path that itself begins with
`points/` (that is, `points/` holds no nested `points/` subdirectory with
files in it), a reference once stripped by Pass B can never be stripped
again: its new uri is the relative path of an existing file under `points/`,
which by assumption does not begin with `points/`. -/
theorem strippable_after_fix (d : TilesDir)
    (hfs : ∀ p, (pointsNames d).contains p = true → py_startswith p "points/" = false)
    (j : PyVal) : spec_strippable_ref_b d ((maybe_fix d j).1) = false := by
  by_cases hr : spec_strippable_ref_b d j = true
  · rcases maybe_fix_of_strippable d j hr with ⟨u, hu, _, hex, hfix⟩
    rw [hfix]
    unfold spec_strippable_ref_b
    have hset : isDict (dSet j "uri" (PyVal.strV (py_slice_from u 7))) = isDict j :=
      isDict_dSet j "uri" _
    have hget : dGet (dSet j "uri" (PyVal.strV (py_slice_from u 7))) "uri"
        = some (PyVal.strV (py_slice_from u 7)) := dGet_dSet_self j "uri" _ _ hu
    have hmem : (pointsNames d).contains (py_slice_from u 7) = true := by
      unfold fileExistsUnderPoints at hex
      rw [Bool.and_eq_true] at hex
      exact hex.2
    have hnostart : py_startswith (py_slice_from u 7) "points/" = false :=
      hfs _ hmem
    by_cases hd : isDict j <;> simp [hset, hd, hget, hnostart]
  · rw [Bool.not_eq_true] at hr
    rw [maybe_fix_of_not_strippable d j hr]
    exact hr

theorem maybe_fix_idem (d : TilesDir)
    (hfs : ∀ p, (pointsNames d).contains p = true → py_startswith p "points/" = false)
    (j : PyVal) : maybe_fix d ((maybe_fix d j).1) = ((maybe_fix d j).1, false) :=
  maybe_fix_of_not_strippable d _ (strippable_after_fix d hfs j)

theorem maybe_fix_not_modified (d : TilesDir) (j : PyVal)
    (h : (maybe_fix d j).2 = false) : (maybe_fix d j).1 = j := by
  have hs : spec_strippable_ref_b d j = false := by rw [← maybe_fix_flag]; exact h
  rw [maybe_fix_of_not_strippable d j hs]

theorem maybe_fix_uri_not_modified (d : TilesDir) (j : PyVal)
    (h : (maybe_fix_uri d j).2 = false) : (maybe_fix_uri d j).1 = j := by
  have hs : spec_rewritable_ref_a d j = false := by rw [← maybe_fix_uri_flag]; exact h
  rw [maybe_fix_uri_of_not_rewritable d j hs]

/-!
Pass-level properties.
-/

theorem isDict_of_dGet_some (j : PyVal) (key : String) (v : PyVal)
    (h : dGet j key = some v) : isDict j = true := by
  cases j <;> simp [dGet] at h <;> rfl

theorem anyEntries_false (hit : PyVal → Bool) (hhit : ∀ j, hit j = false) :
    ∀ j, anyEntries hit j = false := by
  intro j
  induction j with
  | listCons c cs ihc ihcs => simp [anyEntries, hhit c, ihcs]
  | _ => rfl

theorem anyRefSite_false (hit : PyVal → Bool) (hhit : ∀ j, hit j = false) :
    ∀ m j, anyRefSite hit m j = false := by
  intro m j
  induction j generalizing m with
  | dictCons k v rest ihv ihrest =>
      cases m with
      | true => rfl
      | false =>
          simp only [anyRefSite]
          rw [ihrest false]
          by_cases hk1 : k = "content"
          · simp [hk1, hhit v]
          · by_cases hk2 : k = "contents"
            · simp [hk1, hk2, anyEntries_false hit hhit v]
            · by_cases hk3 : k = "children"
              · by_cases hl : isList v
                · simp [hk1, hk2, hk3, hl, ihv true]
                · simp [hk1, hk2, hk3, hl]
              · simp [hk1, hk2, hk3]
  | listCons c cs ihc ihcs =>
      cases m with
      | false => rfl
      | true =>
          simp only [anyRefSite]
          rw [ihcs true]
          by_cases hc : isDict c
          · simp [hc, ihc false]
          · simp [hc]
  | _ => cases m <;> rfl

theorem pass_a_flag (d : TilesDir) :
    (rewrite_child_tileset_uris_if_needed d).2 = spec_main_manifest_rewritable d := by
  unfold rewrite_child_tileset_uris_if_needed spec_main_manifest_rewritable
  cases hm : d.mainTileset with
  | none => rfl
  | some data =>
      unfold spec_manifest_rewritable_a
      by_cases hd : isDict data
      · simp only [hd, ite_true]
        cases hr : dGet data "root" with
        | none => rfl
        | some root =>
            have hw := walk_flag (maybe_fix_uri d) (spec_rewritable_ref_a d)
              (maybe_fix_uri_flag d) false root
            by_cases hflag : (walk (maybe_fix_uri d) false root).2 = true
            · have hany : anyRefSite (spec_rewritable_ref_a d) false root = true := by
                rw [← hw]; exact hflag
              simp [hflag, hany]
            · rw [Bool.not_eq_true] at hflag
              have hany : anyRefSite (spec_rewritable_ref_a d) false root = false := by
                rw [← hw]; exact hflag
              simp [hflag, hany]
      · simp [hd]

theorem pass_a_not_modified (d : TilesDir)
    (h : (rewrite_child_tileset_uris_if_needed d).2 = false) :
    (rewrite_child_tileset_uris_if_needed d).1 = d := by
  unfold rewrite_child_tileset_uris_if_needed at h ⊢
  cases hm : d.mainTileset with
  | none => rfl
  | some data =>
      rw [hm] at h
      by_cases hd : isDict data
      · simp only [hd, ite_true] at h ⊢
        cases hr : dGet data "root" with
        | none => rfl
        | some root =>
            rw [hr] at h
            by_cases hflag : (walk (maybe_fix_uri d) false root).2
            · simp [hflag] at h
            · rw [Bool.not_eq_true] at hflag
              simp [hflag]
      · simp [hd]

theorem pass_a_idem (d : TilesDir) :
    rewrite_child_tileset_uris_if_needed ((rewrite_child_tileset_uris_if_needed d).1)
      = ((rewrite_child_tileset_uris_if_needed d).1, false) := by
  by_cases h : (rewrite_child_tileset_uris_if_needed d).2 = false
  · rw [pass_a_not_modified d h]
    rw [Prod.ext_iff]
    exact ⟨by rw [pass_a_not_modified d h], h⟩
  · -- the first run modified the root manifest; analyze its fired form
    unfold rewrite_child_tileset_uris_if_needed at h ⊢
    cases hm : d.mainTileset with
    | none => rw [hm] at h; simp at h
    | some data =>
        rw [hm] at h
        by_cases hd : isDict data
        · simp only [hd, ite_true] at h ⊢
          cases hr : dGet data "root" with
          | none => rw [hr] at h; simp at h
          | some root =>
              rw [hr] at h
              by_cases hflag : (walk (maybe_fix_uri d) false root).2
              · simp only [hflag, ite_true] at h ⊢
                have hdict2 : isDict (dSet data "root" (walk (maybe_fix_uri d) false root).1)
                    = true := by rw [isDict_dSet]; exact hd
                have hget2 : dGet (dSet data "root" (walk (maybe_fix_uri d) false root).1) "root"
                    = some (walk (maybe_fix_uri d) false root).1 :=
                  dGet_dSet_self data "root" root _ hr
                have hfix2 : maybe_fix_uri (TilesDir.mk
                    (some (dSet data "root" (walk (maybe_fix_uri d) false root).1))
                    d.pointsDirExists d.pointsEntries) = maybe_fix_uri d := rfl
                have hidem := walk_idem (maybe_fix_uri d) (maybe_fix_uri_idem d) false root
                simp [hdict2, hget2, hfix2, hidem]
              · simp [hflag] at h
        · simp [hd] at h

theorem fix_uris_in_data_flag (d : TilesDir) (data : PyVal) :
    (fix_uris_in_data d data).2 = spec_manifest_strippable_b d data := by
  unfold fix_uris_in_data spec_manifest_strippable_b
  by_cases hd : isDict data
  · simp only [hd, ite_true]
    cases hr : dGet data "root" with
    | none => rfl
    | some root =>
        simp [walk_flag (maybe_fix d) (spec_strippable_ref_b d) (maybe_fix_flag d) false root]
  · simp [hd]

theorem fix_uris_in_data_again (d : TilesDir)
    (hfs : ∀ p, (pointsNames d).contains p = true → py_startswith p "points/" = false)
    (data : PyVal) :
    (fix_uris_in_data d ((fix_uris_in_data d data).1)).2 = false := by
  unfold fix_uris_in_data
  by_cases hd : isDict data
  · simp only [hd, ite_true]
    cases hr : dGet data "root" with
    | none => simp [hd, hr]
    | some root =>
        have hdict2 : isDict (dSet data "root" (walk (maybe_fix d) false root).1) = true := by
          rw [isDict_dSet]; exact hd
        have hget2 : dGet (dSet data "root" (walk (maybe_fix d) false root).1) "root"
            = some (walk (maybe_fix d) false root).1 := dGet_dSet_self data "root" root _ hr
        have hidem := walk_idem (maybe_fix d) (maybe_fix_idem d hfs) false root
        simp [hdict2, hget2, hidem]
  · simp [hd]

theorem fix_uris_in_data_congr (d2 d : TilesDir) (heq : maybe_fix d2 = maybe_fix d) :
    fix_uris_in_data d2 = fix_uris_in_data d := by
  funext data
  unfold fix_uris_in_data
  rw [heq]

theorem pass_b_entry_step_fst_fst (d : TilesDir) (e : String × Option PyVal) :
    (pass_b_entry_step d e).1.1 = e.1 := by
  unfold pass_b_entry_step
  by_cases hg : matches_tileset_glob e.1
  · simp only [hg, ite_true]
    cases hc : e.2 with
    | none => rfl
    | some data =>
        by_cases hflag : (fix_uris_in_data d data).2 = true
        · simp [hflag]
        · rw [Bool.not_eq_true] at hflag
          simp [hflag]
  · simp [hg]

theorem pass_b_entry_step_snd (d : TilesDir) (e : String × Option PyVal) :
    (pass_b_entry_step d e).2 =
      (if matches_tileset_glob e.1 then
        match e.2 with
        | some data => if spec_manifest_strippable_b d data then 1 else 0
        | none => 0
      else 0) := by
  unfold pass_b_entry_step
  by_cases hg : matches_tileset_glob e.1
  · simp only [hg, ite_true]
    cases hc : e.2 with
    | none => rfl
    | some data =>
        by_cases hflag : (fix_uris_in_data d data).2 = true
        · have hs : spec_manifest_strippable_b d data = true := by
            rw [← fix_uris_in_data_flag]; exact hflag
          simp [hflag, hs]
        · rw [Bool.not_eq_true] at hflag
          have hs : spec_manifest_strippable_b d data = false := by
            rw [← fix_uris_in_data_flag]; exact hflag
          simp [hflag, hs]
  · simp [hg]

theorem pass_b_entry_step_zero (d : TilesDir) (e : String × Option PyVal)
    (h : (pass_b_entry_step d e).2 = 0) : (pass_b_entry_step d e).1 = e := by
  unfold pass_b_entry_step at h ⊢
  by_cases hg : matches_tileset_glob e.1
  · simp only [hg, ite_true] at h ⊢
    cases hc : e.2 with
    | none => rfl
    | some data =>
        rw [hc] at h
        by_cases hflag : (fix_uris_in_data d data).2 = true
        · simp [hflag] at h
        · rw [Bool.not_eq_true] at hflag
          simp [hflag]
  · simp [hg]

theorem pass_b_entry_step_congr (d2 d : TilesDir) (heq : maybe_fix d2 = maybe_fix d) :
    pass_b_entry_step d2 = pass_b_entry_step d := by
  funext e
  unfold pass_b_entry_step
  rw [fix_uris_in_data_congr d2 d heq]

theorem pass_b_entry_step_again (d : TilesDir)
    (hfs : ∀ p, (pointsNames d).contains p = true → py_startswith p "points/" = false)
    (e : String × Option PyVal) :
    pass_b_entry_step d ((pass_b_entry_step d e).1) = ((pass_b_entry_step d e).1, 0) := by
  by_cases hg : matches_tileset_glob e.1
  · cases hc : e.2 with
    | none =>
        have h1 : pass_b_entry_step d e = (e, 0) := by
          unfold pass_b_entry_step; simp [hg, hc]
        rw [h1]
        unfold pass_b_entry_step; simp [hg, hc]
    | some data =>
        by_cases hflag : (fix_uris_in_data d data).2 = true
        · have h1 : pass_b_entry_step d e = ((e.1, some (fix_uris_in_data d data).1), 1) := by
            unfold pass_b_entry_step; simp [hg, hc, hflag]
          rw [h1]
          have h2 := fix_uris_in_data_again d hfs data
          unfold pass_b_entry_step
          simp [hg, h2]
        · rw [Bool.not_eq_true] at hflag
          have h1 : pass_b_entry_step d e = (e, 0) := by
            unfold pass_b_entry_step; simp [hg, hc, hflag]
          rw [h1]
          unfold pass_b_entry_step; simp [hg, hc, hflag]
  · have h1 : pass_b_entry_step d e = (e, 0) := by
      unfold pass_b_entry_step; simp [hg]
    rw [h1]
    unfold pass_b_entry_step; simp [hg]

theorem pass_b_dirExists (d : TilesDir) :
    ((normalize_sub_tileset_uris_in_points d).1).pointsDirExists = d.pointsDirExists := by
  unfold normalize_sub_tileset_uris_in_points
  by_cases hdir : d.pointsDirExists <;> simp [hdir]

theorem pass_b_mainTileset (d : TilesDir) :
    ((normalize_sub_tileset_uris_in_points d).1).mainTileset = d.mainTileset := by
  unfold normalize_sub_tileset_uris_in_points
  by_cases hdir : d.pointsDirExists <;> simp [hdir]

theorem pass_b_names (d : TilesDir) :
    pointsNames ((normalize_sub_tileset_uris_in_points d).1) = pointsNames d := by
  unfold normalize_sub_tileset_uris_in_points
  by_cases hdir : d.pointsDirExists
  · simp only [hdir, ite_true, pointsNames]
    rw [List.map_map, List.map_map]
    apply List.map_congr_left
    intro e he
    exact pass_b_entry_step_fst_fst d e
  · simp [hdir]

theorem maybe_fix_congr (d2 d : TilesDir)
    (h1 : d2.pointsDirExists = d.pointsDirExists)
    (h2 : pointsNames d2 = pointsNames d) : maybe_fix d2 = maybe_fix d := by
  have hf : fileExistsUnderPoints d2 = fileExistsUnderPoints d := by
    funext rel
    unfold fileExistsUnderPoints
    rw [h1, h2]
  funext j
  unfold maybe_fix
  rw [hf]

theorem spec_strippable_false_of_no_dir (d : TilesDir)
    (hdir : d.pointsDirExists = false) :
    ∀ j, spec_strippable_ref_b d j = false := by
  intro j
  unfold spec_strippable_ref_b fileExistsUnderPoints
  rw [hdir]
  by_cases hd2 : isDict j
  · simp only [hd2, ite_true]
    split <;> simp
  · simp [hd2]

theorem spec_manifest_strippable_false_of_no_dir (d : TilesDir)
    (hdir : d.pointsDirExists = false) (data : PyVal) :
    spec_manifest_strippable_b d data = false := by
  unfold spec_manifest_strippable_b
  by_cases hd : isDict data
  · simp only [hd, ite_true]
    cases hr : dGet data "root" with
    | none => rfl
    | some root =>
        simp [anyRefSite_false (spec_strippable_ref_b d)
          (spec_strippable_false_of_no_dir d hdir) false root]
  · simp [hd]

theorem pass_b_count (d : TilesDir) :
    (normalize_sub_tileset_uris_in_points d).2 = spec_pass_b_modified_count d := by
  unfold normalize_sub_tileset_uris_in_points spec_pass_b_modified_count
  by_cases hdir : d.pointsDirExists
  · simp only [hdir, ite_true]
    rw [List.map_map]
    congr 1
    apply List.map_congr_left
    intro e he
    exact pass_b_entry_step_snd d e
  · rw [Bool.not_eq_true] at hdir
    simp only [hdir, Bool.false_eq_true, ite_false]
    symm
    apply List.sum_eq_zero
    intro x hx
    rcases List.mem_map.mp hx with ⟨e, he, hex⟩
    rw [← hex]
    by_cases hg : matches_tileset_glob e.1
    · simp only [hg, ite_true]
      cases hc : e.2 with
      | none => rfl
      | some data => simp [spec_manifest_strippable_false_of_no_dir d hdir data]
    · simp [hg]

theorem pass_b_zero (d : TilesDir)
    (h : (normalize_sub_tileset_uris_in_points d).2 = 0) :
    (normalize_sub_tileset_uris_in_points d).1 = d := by
  unfold normalize_sub_tileset_uris_in_points at h ⊢
  by_cases hdir : d.pointsDirExists
  · simp only [hdir, ite_true] at h ⊢
    have hz : ∀ e ∈ d.pointsEntries, (pass_b_entry_step d e).2 = 0 := by
      intro e he
      rw [List.map_map] at h
      have := List.sum_eq_zero_iff.mp h
      exact this _ (List.mem_map.mpr ⟨e, he, rfl⟩)
    have hents : (d.pointsEntries.map (pass_b_entry_step d)).map Prod.fst
        = d.pointsEntries := by
      rw [List.map_map]
      have : d.pointsEntries.map (Prod.fst ∘ pass_b_entry_step d)
          = d.pointsEntries.map id := by
        apply List.map_congr_left
        intro e he
        exact pass_b_entry_step_zero d e (hz e he)
      rw [this, List.map_id]
    rw [hents]
    cases d
    simp_all
  · simp [hdir]

theorem pass_b_idem (d : TilesDir)
    (hfs : ∀ p, (pointsNames d).contains p = true → py_startswith p "points/" = false) :
    normalize_sub_tileset_uris_in_points ((normalize_sub_tileset_uris_in_points d).1)
      = ((normalize_sub_tileset_uris_in_points d).1, 0) := by
  have hmf : maybe_fix ((normalize_sub_tileset_uris_in_points d).1) = maybe_fix d :=
    maybe_fix_congr _ d (pass_b_dirExists d) (pass_b_names d)
  have hstep : pass_b_entry_step ((normalize_sub_tileset_uris_in_points d).1)
      = pass_b_entry_step d := pass_b_entry_step_congr _ d hmf
  by_cases hdir : d.pointsDirExists
  · have hdir2 : ((normalize_sub_tileset_uris_in_points d).1).pointsDirExists = true := by
      rw [pass_b_dirExists]; exact hdir
    have hent2 : ((normalize_sub_tileset_uris_in_points d).1).pointsEntries
        = d.pointsEntries.map (Prod.fst ∘ pass_b_entry_step d) := by
      unfold normalize_sub_tileset_uris_in_points
      simp [hdir, List.map_map]
    have hmap1 : List.map (Prod.fst ∘ pass_b_entry_step d ∘ Prod.fst ∘ pass_b_entry_step d)
        d.pointsEntries = List.map (Prod.fst ∘ pass_b_entry_step d) d.pointsEntries := by
      apply List.map_congr_left
      intro e he
      simp only [Function.comp]
      rw [pass_b_entry_step_again d hfs e]
    have hmap2 : (List.map (Prod.snd ∘ pass_b_entry_step d ∘ Prod.fst ∘ pass_b_entry_step d)
        d.pointsEntries).sum = 0 := by
      apply List.sum_eq_zero
      intro x hx
      rcases List.mem_map.mp hx with ⟨e, he, hex⟩
      rw [← hex]
      simp only [Function.comp]
      rw [pass_b_entry_step_again d hfs e]
    have hX : (normalize_sub_tileset_uris_in_points d).1
        = TilesDir.mk ((normalize_sub_tileset_uris_in_points d).1).mainTileset true
          ((normalize_sub_tileset_uris_in_points d).1).pointsEntries := by
      conv_lhs => rw [show (normalize_sub_tileset_uris_in_points d).1
        = TilesDir.mk ((normalize_sub_tileset_uris_in_points d).1).mainTileset
          ((normalize_sub_tileset_uris_in_points d).1).pointsDirExists
          ((normalize_sub_tileset_uris_in_points d).1).pointsEntries from rfl]
      rw [hdir2]
    conv_lhs => rw [normalize_sub_tileset_uris_in_points]
    simp only [hdir2, ite_true, hstep, hent2, List.map_map]
    rw [hmap1, hmap2, ← hent2, ← hX]
  · have hid : normalize_sub_tileset_uris_in_points d = (d, 0) := by
      unfold normalize_sub_tileset_uris_in_points
      simp [hdir]
    rw [hid]
    exact hid

/-!
String decompositions used to characterize the glob pattern.
-/

theorem py_contains_iff (s : String) (c : Char) :
    py_contains s c = true ↔ c ∈ s.data := by
  simp [py_contains, List.contains, List.elem_eq_mem]

theorem listStarts_exists (p : List Char) :
    ∀ s, listStarts s p = true ↔ ∃ t, s = p ++ t := by
  induction p with
  | nil =>
      intro s
      constructor
      · intro _; exact ⟨s, rfl⟩
      · intro _; cases s <;> rfl
  | cons b bs ih =>
      intro s
      cases s with
      | nil =>
          simp [listStarts]
      | cons a as =>
          simp only [listStarts, Bool.and_eq_true, decide_eq_true_eq, ih, List.cons_append,
            List.cons.injEq]
          constructor
          · rintro ⟨hab, t, ht⟩
            exact ⟨t, hab, ht⟩
          · rintro ⟨t, hab, ht⟩
            exact ⟨hab, t, ht⟩

theorem py_startswith_iff (s p : String) :
    py_startswith s p = true ↔ ∃ t, s.data = p.data ++ t := by
  simp [py_startswith, listStarts_exists]

theorem py_endswith_iff (s p : String) :
    py_endswith s p = true ↔ ∃ t, s.data = t ++ p.data := by
  simp only [py_endswith, listStarts_exists]
  constructor
  · rintro ⟨t, ht⟩
    refine ⟨t.reverse, ?_⟩
    rw [← List.reverse_reverse s.data, ht]
    simp
  · rintro ⟨t, ht⟩
    refine ⟨t.reverse, ?_⟩
    rw [ht]
    simp

theorem py_endswith_concat (a b c : String) (h : py_endswith b c = true) :
    py_endswith (py_concat a b) c = true := by
  rcases (py_endswith_iff b c).mp h with ⟨t, ht⟩
  apply (py_endswith_iff _ c).mpr
  exact ⟨a.data ++ t, by simp [py_concat, ht, List.append_assoc]⟩

theorem matches_tileset_glob_iff (n : String) :
    matches_tileset_glob n = true ↔
      ∃ mid : String, n = py_concat (py_concat "tileset." mid) ".json"
        ∧ py_contains mid '/' = false := by
  unfold matches_tileset_glob
  constructor
  · intro h
    rw [Bool.and_eq_true, Bool.and_eq_true] at h
    rcases h with ⟨⟨h1, h2⟩, h3⟩
    rw [Bool.not_eq_true'] at h3
    rcases (py_startswith_iff n "tileset.").mp h1 with ⟨rest, hrest⟩
    have hslice : (py_slice_from n 8).data = rest := by
      simp only [py_slice_from, hrest]
      exact List.drop_left' (by decide)
    rcases (py_endswith_iff (py_slice_from n 8) ".json").mp h2 with ⟨t, ht⟩
    rw [hslice] at ht
    refine ⟨String.mk t, String.ext ?_, ?_⟩
    · show n.data = _
      simp only [py_concat, hrest, ht]
      simp [List.append_assoc]
    · by_contra hmid
      rw [Bool.not_eq_false] at hmid
      have hmem : '/' ∈ t := by
        have := (py_contains_iff (String.mk t) '/').mp hmid
        simpa using this
      have : ('/' : Char) ∈ n.data := by
        rw [hrest, ht]
        simp [hmem]
      rw [← py_contains_iff] at this
      rw [this] at h3
      exact absurd h3 (by simp)
  · rintro ⟨mid, hmid, hslash⟩
    subst hmid
    rw [Bool.and_eq_true, Bool.and_eq_true]
    have hdata : (py_concat (py_concat "tileset." mid) ".json").data
        = "tileset.".data ++ (mid.data ++ ".json".data) := by
      simp [py_concat, List.append_assoc]
    refine ⟨⟨?_, ?_⟩, ?_⟩
    · rw [py_startswith_iff]
      exact ⟨mid.data ++ ".json".data, hdata⟩
    · have hslice : (py_slice_from (py_concat (py_concat "tileset." mid) ".json") 8).data
          = mid.data ++ ".json".data := by
        simp only [py_slice_from, hdata]
        exact List.drop_left' (by decide)
      rw [py_endswith_iff]
      exact ⟨mid.data, by rw [hslice]⟩
    · rw [Bool.not_eq_true']
      by_contra hc
      rw [Bool.not_eq_false] at hc
      have := (py_contains_iff _ '/').mp hc
      rw [hdata] at this
      rcases List.mem_append.mp this with hpre | hrest2
      · exact absurd hpre (by decide)
      · rcases List.mem_append.mp hrest2 with hmid2 | hsuf
        · have : py_contains mid '/' = true := (py_contains_iff mid '/').mpr hmid2
          rw [this] at hslash
          exact absurd hslash (by simp)
        · exact absurd hsuf (by decide)

/-!
Claim theorems.
-/

/-- C1: for every root manifest tree, Pass A rewrites a walked reference
whose uri is a string exactly when the uri matches the bare-name pattern
(starts with `tileset.`, ends with `.json`, no path separator) and a file of
that name exists under `points/`, prefixing the name with `points/`; it
reports modified = true exactly when at least one reference meeting both
conditions occurs in the walked manifest; and when it reports modified =
false the directory state is untouched, so every uri not meeting both
conditions (in particular any uri with a path separator) is left
unchanged. -/
theorem C1_pass_a_rewrite_characterization :
    (∀ (d : TilesDir) (j : PyVal) (u : String), dGet j "uri" = some (PyVal.strV u) →
      maybe_fix_uri d j =
        (if isBareTilesetJsonName u && fileExistsUnderPoints d u then
          (dSet j "uri" (PyVal.strV (py_concat "points/" u)), true)
        else (j, false)))
    ∧ (∀ d : TilesDir,
        (rewrite_child_tileset_uris_if_needed d).2 = spec_main_manifest_rewritable d)
    ∧ (∀ d : TilesDir, (rewrite_child_tileset_uris_if_needed d).2 = false →
        (rewrite_child_tileset_uris_if_needed d).1 = d) := by
  refine ⟨?_, pass_a_flag, pass_a_not_modified⟩
  intro d j u hu
  have hd : isDict j = true := isDict_of_dGet_some j "uri" _ hu
  by_cases hc : (isBareTilesetJsonName u && fileExistsUnderPoints d u) = true
  · have hs : spec_rewritable_ref_a d j = true := by
      unfold spec_rewritable_ref_a
      simp [hd, hu, hc]
    rcases maybe_fix_uri_of_rewritable d j hs with ⟨u2, hu2, _hb2, _he2, hfix⟩
    rw [hu] at hu2
    have hu2e : u = u2 := by
      injection hu2 with h1
      injection h1
    rw [hfix, ← hu2e]
    simp [hc]
  · rw [Bool.not_eq_true] at hc
    have hs : spec_rewritable_ref_a d j = false := by
      unfold spec_rewritable_ref_a
      simp [hd, hu, hc]
    rw [maybe_fix_uri_of_not_rewritable d j hs]
    simp [hc]

/-- Witness for C1 at a concrete reference and directory state. -/
theorem C1_witness :
    maybe_fix_uri dirWithTileset1 (refWithUri "tileset.1.json")
      = (if isBareTilesetJsonName "tileset.1.json"
            && fileExistsUnderPoints dirWithTileset1 "tileset.1.json" then
          (dSet (refWithUri "tileset.1.json") "uri"
            (PyVal.strV (py_concat "points/" "tileset.1.json")), true)
        else (refWithUri "tileset.1.json", false)) :=
  C1_pass_a_rewrite_characterization.1 dirWithTileset1 (refWithUri "tileset.1.json")
    "tileset.1.json" rfl

/-- C2: for every auxiliary manifest reference whose uri is a string, Pass B
rewrites it exactly when the uri starts with the literal `points/` and the
stripped remainder exists as a file under `points/`, replacing the uri with
the stripped remainder; Pass B returns the number of glob-matched, parseable
files containing at least one such reference (each of which is persisted);
and when the returned count is zero the directory state is untouched. -/
theorem C2_pass_b_rewrite_characterization :
    (∀ (d : TilesDir) (j : PyVal) (u : String), dGet j "uri" = some (PyVal.strV u) →
      maybe_fix d j =
        (if py_startswith u "points/" && fileExistsUnderPoints d (py_slice_from u 7) then
          (dSet j "uri" (PyVal.strV (py_slice_from u 7)), true)
        else (j, false)))
    ∧ (∀ d : TilesDir,
        (normalize_sub_tileset_uris_in_points d).2 = spec_pass_b_modified_count d)
    ∧ (∀ d : TilesDir, (normalize_sub_tileset_uris_in_points d).2 = 0 →
        (normalize_sub_tileset_uris_in_points d).1 = d) := by
  refine ⟨?_, pass_b_count, pass_b_zero⟩
  intro d j u hu
  have hd : isDict j = true := isDict_of_dGet_some j "uri" _ hu
  by_cases hc : (py_startswith u "points/"
      && fileExistsUnderPoints d (py_slice_from u 7)) = true
  · have hs : spec_strippable_ref_b d j = true := by
      unfold spec_strippable_ref_b
      simp [hd, hu, hc]
    rcases maybe_fix_of_strippable d j hs with ⟨u2, hu2, _hb2, _he2, hfix⟩
    rw [hu] at hu2
    have hu2e : u = u2 := by
      injection hu2 with h1
      injection h1
    rw [hfix, ← hu2e]
    simp [hc]
  · rw [Bool.not_eq_true] at hc
    have hs : spec_strippable_ref_b d j = false := by
      unfold spec_strippable_ref_b
      simp [hd, hu, hc]
    rw [maybe_fix_of_not_strippable d j hs]
    simp [hc]

/-- Witness for C2 at a concrete reference and directory state. -/
theorem C2_witness :
    maybe_fix abcPointsDir (refWithUri "points/tile_7.pnts")
      = (if py_startswith "points/tile_7.pnts" "points/"
            && fileExistsUnderPoints abcPointsDir
                (py_slice_from "points/tile_7.pnts" 7) then
          (dSet (refWithUri "points/tile_7.pnts") "uri"
            (PyVal.strV (py_slice_from "points/tile_7.pnts" 7)), true)
        else (refWithUri "points/tile_7.pnts", false)) :=
  C2_pass_b_rewrite_characterization.1 abcPointsDir (refWithUri "points/tile_7.pnts")
    "points/tile_7.pnts" rfl

/-- C3 counterexample: Pass B is not idempotent on every manifest state.
With a nested `points/points/a.pnts` file present together with
`points/a.pnts`, the first run rewrites `points/points/a.pnts` to
`points/a.pnts`, and the second run strips another `points/` layer and
reports one modified file instead of zero. -/
theorem C3_counterexample :
    (normalize_sub_tileset_uris_in_points
      ((normalize_sub_tileset_uris_in_points nestedPointsDir).1)).2 = 1 := by
  decide

/-- C3 as amended: Pass A is idempotent on every state (the second run
reports no modification and leaves the state unchanged); Pass B is
idempotent provided no existing file path under `points/` itself begins with
`points/` (that is, `points/` holds no nested `points/` subdirectory with
files), in which case the second run returns a modified-file count of zero
and changes nothing. -/
theorem C3_amended_idempotence :
    (∀ d : TilesDir,
      rewrite_child_tileset_uris_if_needed ((rewrite_child_tileset_uris_if_needed d).1)
        = ((rewrite_child_tileset_uris_if_needed d).1, false))
    ∧ (∀ d : TilesDir,
        (∀ p, (pointsNames d).contains p = true → py_startswith p "points/" = false) →
        normalize_sub_tileset_uris_in_points ((normalize_sub_tileset_uris_in_points d).1)
          = ((normalize_sub_tileset_uris_in_points d).1, 0)) :=
  ⟨pass_a_idem, pass_b_idem⟩

/-- Witness for C3 as amended, at a directory state with no nested
`points/` path. -/
theorem C3_witness :
    normalize_sub_tileset_uris_in_points
        ((normalize_sub_tileset_uris_in_points abcPointsDir).1)
      = ((normalize_sub_tileset_uris_in_points abcPointsDir).1, 0) :=
  C3_amended_idempotence.2 abcPointsDir (by
    intro p hp
    have hmem : p ∈ pointsNames abcPointsDir := by
      have := hp
      simp only [List.contains, List.elem_eq_mem, decide_eq_true_eq] at this
      exact this
    have : p = "tileset.abc.json" ∨ p = "tile_7.pnts" := by
      simpa [pointsNames, abcPointsDir] using hmem
    rcases this with h | h <;> (subst h; decide))

/-- C7 counterexample: a file under `points/` named `tileset.abc.json`,
whose name does not have an integer between the two dots, is matched by the
glob, loaded, rewritten and counted by Pass B. -/
theorem C7_counterexample :
    matches_tileset_glob "tileset.abc.json" = true
    ∧ (normalize_sub_tileset_uris_in_points abcPointsDir).2 = 1
    ∧ (normalize_sub_tileset_uris_in_points abcPointsDir).1.pointsEntries
        = [("tileset.abc.json", some (manifestWithRef "tile_7.pnts")),
           ("tile_7.pnts", none)] := by
  refine ⟨by decide, by decide, by decide⟩

/-- C7 as amended: Pass B loads and rewrites exactly those files directly
under `points/` whose name matches the glob pattern `tileset.*.json`, that
is, names of the form `tileset.<S>.json` for an arbitrary, possibly empty,
separator-free string S — integer or not; a file whose name does not match
the glob is left untouched; in particular `tileset.abc.json` is matched and
`tileset.json` is not. -/
theorem C7_amended_glob_processing :
    (∀ n : String, matches_tileset_glob n = true ↔
      ∃ mid : String, n = py_concat (py_concat "tileset." mid) ".json"
        ∧ py_contains mid '/' = false)
    ∧ (∀ d : TilesDir, d.pointsDirExists = true →
        (normalize_sub_tileset_uris_in_points d).1.pointsEntries
          = d.pointsEntries.map (fun e =>
              if matches_tileset_glob e.1 then (pass_b_entry_step d e).1 else e))
    ∧ matches_tileset_glob "tileset.abc.json" = true
    ∧ matches_tileset_glob "tileset.1.json" = true
    ∧ matches_tileset_glob "tileset.json" = false := by
  refine ⟨matches_tileset_glob_iff, ?_, by decide, by decide, by decide⟩
  intro d hdir
  unfold normalize_sub_tileset_uris_in_points
  simp only [hdir, ite_true, List.map_map]
  apply List.map_congr_left
  intro e he
  by_cases hg : matches_tileset_glob e.1
  · simp [hg]
  · rw [Bool.not_eq_true] at hg
    have : pass_b_entry_step d e = (e, 0) := by
      unfold pass_b_entry_step
      simp [hg]
    simp [hg, Function.comp, this]

/-- Witness for C7 as amended: the processing map applied at a concrete
directory state, and the glob characterization at a concrete name. -/
theorem C7_witness :
    (normalize_sub_tileset_uris_in_points abcPointsDir).1.pointsEntries
      = abcPointsDir.pointsEntries.map (fun e =>
          if matches_tileset_glob e.1 then (pass_b_entry_step abcPointsDir e).1 else e) :=
  C7_amended_glob_processing.2.1 abcPointsDir rfl

/-- C10: the bare-name test of Pass A is purely prefix/suffix based, so
`tileset.json` itself and `tileset.abc.json` both satisfy it, and on a root
manifest referencing `tileset.abc.json` with a same-named file present under
`points/`, Pass A rewrites the uri to the `points/`-prefixed form and
reports modified = true. -/
theorem C10_bare_name_test_is_syntactic :
    isBareTilesetJsonName "tileset.json" = true
    ∧ isBareTilesetJsonName "tileset.abc.json" = true
    ∧ rewrite_child_tileset_uris_if_needed dirWithTilesetAbc
        = (TilesDir.mk (some (manifestWithRef "points/tileset.abc.json")) true
            [("tileset.abc.json", none)], true) := by
  refine ⟨by decide, by decide, by decide⟩

/-- C8: corrupting one auxiliary manifest file into malformed JSON makes
Pass B skip exactly that file: every other file is processed to the same
result as in the intact state (same per-entry outcome, since the existence
set consulted by the repairs is the set of file names, which is unchanged),
the corrupted entry itself is left untouched, and the returned count is the
intact-state count minus the corrupted file's own contribution.  Pass B is a
total function of the state, so malformed input never raises. -/
theorem C8_malformed_file_skipped :
    ∀ (mt : Option PyVal) (xs ys : List (String × Option PyVal)) (n : String) (data : PyVal),
      ((normalize_sub_tileset_uris_in_points
          (TilesDir.mk mt true (xs ++ (n, none) :: ys))).1.pointsEntries
        = (xs.map (fun e =>
            (pass_b_entry_step (TilesDir.mk mt true (xs ++ (n, some data) :: ys)) e).1))
          ++ (n, none)
          :: (ys.map (fun e =>
            (pass_b_entry_step (TilesDir.mk mt true (xs ++ (n, some data) :: ys)) e).1)))
      ∧ ((normalize_sub_tileset_uris_in_points (TilesDir.mk mt true (xs ++ (n, none) :: ys))).2
          + (if matches_tileset_glob n
                && (fix_uris_in_data (TilesDir.mk mt true (xs ++ (n, some data) :: ys)) data).2
              then 1 else 0)
        = (normalize_sub_tileset_uris_in_points
            (TilesDir.mk mt true (xs ++ (n, some data) :: ys))).2) := by
  intro mt xs ys n data
  have hnames : pointsNames (TilesDir.mk mt true (xs ++ (n, none) :: ys))
      = pointsNames (TilesDir.mk mt true (xs ++ (n, some data) :: ys)) := by
    simp [pointsNames]
  have hmf := maybe_fix_congr (TilesDir.mk mt true (xs ++ (n, none) :: ys))
    (TilesDir.mk mt true (xs ++ (n, some data) :: ys)) rfl hnames
  have hstep := pass_b_entry_step_congr (TilesDir.mk mt true (xs ++ (n, none) :: ys))
    (TilesDir.mk mt true (xs ++ (n, some data) :: ys)) hmf
  have hnone1 : ∀ d0 : TilesDir, (pass_b_entry_step d0 (n, none)).1 = (n, none) := by
    intro d0
    unfold pass_b_entry_step
    by_cases hg : matches_tileset_glob n <;> simp [hg]
  have hnone2 : ∀ d0 : TilesDir, (pass_b_entry_step d0 (n, none)).2 = 0 := by
    intro d0
    unfold pass_b_entry_step
    by_cases hg : matches_tileset_glob n <;> simp [hg]
  have hmid : (pass_b_entry_step (TilesDir.mk mt true (xs ++ (n, some data) :: ys))
      (n, some data)).2
      = (if matches_tileset_glob n
            && (fix_uris_in_data (TilesDir.mk mt true (xs ++ (n, some data) :: ys)) data).2
          then 1 else 0) := by
    unfold pass_b_entry_step
    by_cases hg : matches_tileset_glob n
    · by_cases hflag : (fix_uris_in_data
          (TilesDir.mk mt true (xs ++ (n, some data) :: ys)) data).2 = true
      · simp [hg, hflag]
      · rw [Bool.not_eq_true] at hflag
        simp [hg, hflag]
    · rw [Bool.not_eq_true] at hg
      simp [hg]
  constructor
  · unfold normalize_sub_tileset_uris_in_points
    simp only [ite_true, List.map_append, List.map_cons, List.map_map, hstep]
    rw [hnone1]
    rfl
  · unfold normalize_sub_tileset_uris_in_points
    simp only [ite_true, List.map_append, List.map_cons, List.map_map, List.sum_append,
      List.sum_cons, hstep]
    rw [hnone2, hmid]
    omega

/-- C4 counterexample: with the engine executable unresolvable and overwrite
requested, the run does fail with the tool-not-found error, but only after
the output directory has been created, removed and recreated — the claimed
absence of any output-directory mutation is false. -/
theorem C4_counterexample :
    (convert_las_to_3dtiles noToolEnv).2 = Except.error ConvErr.toolNotFound
    ∧ (convert_las_to_3dtiles noToolEnv).1
        = [Eff.mkdirOutput, Eff.rmtreeOutput, Eff.mkdirOutput] := by
  constructor
  · rfl
  · rfl

/-- C4 as amended: when the engine executable resolves neither adjacent to
the interpreter nor on PATH, the conversion fails with the tool-not-found
error before the engine is invoked and before any file is written under the
output directory (no log write, no repair); however this failure comes after
the output directory has been created — and, when overwrite is set, removed
and recreated — so the trace up to the failure is exactly the directory
preparation and input decompression effects. -/
theorem C4_amended_tool_not_found :
    ∀ e : Env, e.exeAdjacent = false → e.exeOnPath = false →
      convert_las_to_3dtiles e = (preResolveTrace e, Except.error ConvErr.toolNotFound)
      ∧ (∀ cmd, Eff.runEngine cmd ∉ (convert_las_to_3dtiles e).1)
      ∧ (∀ s, Eff.writeLog s ∉ (convert_las_to_3dtiles e).1)
      ∧ Eff.repairA ∉ (convert_las_to_3dtiles e).1
      ∧ Eff.repairB ∉ (convert_las_to_3dtiles e).1 := by
  intro e h1 h2
  have hconv : convert_las_to_3dtiles e
      = (preResolveTrace e, Except.error ConvErr.toolNotFound) := by
    unfold convert_las_to_3dtiles
    simp [h1, h2]
  refine ⟨hconv, ?_, ?_, ?_, ?_⟩ <;>
    · rw [hconv]
      first
        | (intro cmd
           unfold preResolveTrace
           by_cases ho : e.overwrite <;> by_cases hl : (e.inputIsLaz && e.uncompressOk) <;>
             simp [ho, hl])
        | (unfold preResolveTrace
           by_cases ho : e.overwrite <;> by_cases hl : (e.inputIsLaz && e.uncompressOk) <;>
             simp [ho, hl])

/-- Witness for C4 as amended at the concrete unresolvable environment. -/
theorem C4_witness :
    convert_las_to_3dtiles noToolEnv
      = (preResolveTrace noToolEnv, Except.error ConvErr.toolNotFound) :=
  (C4_amended_tool_not_found noToolEnv rfl rfl).1

/-- C5: the engine command line contains the coordinate-transform flag and
the axis-order flag exactly when CRS metadata was detected and the requested
output CRS is non-empty; in that case the transform flag is immediately
followed by the requested CRS value and the axis-order flag; and with no
detected CRS metadata neither flag appears, regardless of the requested
output CRS.  The path arguments are assumed distinct from the two flag
literals. -/
theorem C5_crs_flag_policy :
    ∀ (exe outDir : String) (has_crs : Bool) (srs extra : Option String) (input : String),
      exe ≠ "--srs_out" → exe ≠ "--pyproj-always-xy" →
      outDir ≠ "--srs_out" → outDir ≠ "--pyproj-always-xy" →
      input ≠ "--srs_out" → input ≠ "--pyproj-always-xy" →
      (∀ s, extra = some s → s ≠ "--srs_out" ∧ s ≠ "--pyproj-always-xy") →
      ((("--srs_out" ∈ build_py3dtiles_cmd exe outDir has_crs srs extra input)
          ∧ ("--pyproj-always-xy" ∈ build_py3dtiles_cmd exe outDir has_crs srs extra input))
        ↔ (has_crs = true ∧ py_truthy srs = true))
      ∧ (∀ s, srs = some s → has_crs = true → py_truthy srs = true →
          List.IsInfix ["--srs_out", s, "--pyproj-always-xy"]
            (build_py3dtiles_cmd exe outDir has_crs srs extra input))
      ∧ (has_crs = false →
          ("--srs_out" ∉ build_py3dtiles_cmd exe outDir has_crs srs extra input
            ∧ "--pyproj-always-xy" ∉ build_py3dtiles_cmd exe outDir has_crs srs extra input)) := by
  intro exe outDir has_crs srs extra input he1 he2 ho1 ho2 hi1 hi2 hx
  have hcmd : build_py3dtiles_cmd exe outDir has_crs srs extra input
      = ([exe, "convert", "--out", outDir]
          ++ (if (has_crs && py_truthy srs) = true then
                ["--srs_out", srs.getD "", "--pyproj-always-xy"] else [])
          ++ (if py_truthy extra = true then ["--extra-fields", extra.getD ""] else [])
          ++ [input]) := by
    unfold build_py3dtiles_cmd
    by_cases hc : (has_crs && py_truthy srs) = true <;>
      by_cases ht : py_truthy extra = true <;> simp [hc, ht, List.append_assoc]
  have hb1 : "--srs_out" ∉ ([exe, "convert", "--out", outDir] : List String) := by
    intro hmem
    rcases List.mem_cons.mp hmem with h | hmem
    · exact he1 h.symm
    rcases List.mem_cons.mp hmem with h | hmem
    · exact absurd h (by decide)
    rcases List.mem_cons.mp hmem with h | hmem
    · exact absurd h (by decide)
    rcases List.mem_cons.mp hmem with h | hmem
    · exact ho1 h.symm
    · exact absurd hmem (List.not_mem_nil _)
  have hb2 : "--pyproj-always-xy" ∉ ([exe, "convert", "--out", outDir] : List String) := by
    intro hmem
    rcases List.mem_cons.mp hmem with h | hmem
    · exact he2 h.symm
    rcases List.mem_cons.mp hmem with h | hmem
    · exact absurd h (by decide)
    rcases List.mem_cons.mp hmem with h | hmem
    · exact absurd h (by decide)
    rcases List.mem_cons.mp hmem with h | hmem
    · exact ho2 h.symm
    · exact absurd hmem (List.not_mem_nil _)
  have hex1 : "--srs_out"
      ∉ (if py_truthy extra = true then ["--extra-fields", extra.getD ""] else []) := by
    by_cases ht : py_truthy extra = true
    · rw [if_pos ht]
      intro hmem
      rcases List.mem_cons.mp hmem with h | hmem
      · exact absurd h (by decide)
      rcases List.mem_cons.mp hmem with h | hmem
      · cases hexx : extra with
        | none => rw [hexx] at ht; exact absurd ht (by simp [py_truthy])
        | some s =>
            rw [hexx] at h
            exact (hx s hexx).1 (by simpa using h.symm)
      · exact absurd hmem (List.not_mem_nil _)
    · rw [if_neg ht]
      exact List.not_mem_nil _
  have hex2 : "--pyproj-always-xy"
      ∉ (if py_truthy extra = true then ["--extra-fields", extra.getD ""] else []) := by
    by_cases ht : py_truthy extra = true
    · rw [if_pos ht]
      intro hmem
      rcases List.mem_cons.mp hmem with h | hmem
      · exact absurd h (by decide)
      rcases List.mem_cons.mp hmem with h | hmem
      · cases hexx : extra with
        | none => rw [hexx] at ht; exact absurd ht (by simp [py_truthy])
        | some s =>
            rw [hexx] at h
            exact (hx s hexx).2 (by simpa using h.symm)
      · exact absurd hmem (List.not_mem_nil _)
    · rw [if_neg ht]
      exact List.not_mem_nil _
  have hin1 : "--srs_out" ∉ ([input] : List String) := by
    intro hmem
    rcases List.mem_cons.mp hmem with h | hmem
    · exact hi1 h.symm
    · exact absurd hmem (List.not_mem_nil _)
  have hin2 : "--pyproj-always-xy" ∉ ([input] : List String) := by
    intro hmem
    rcases List.mem_cons.mp hmem with h | hmem
    · exact hi2 h.symm
    · exact absurd hmem (List.not_mem_nil _)
  refine ⟨⟨?_, ?_⟩, ?_, ?_⟩
  · rintro ⟨hm1, _hm2⟩
    rw [hcmd] at hm1
    rcases List.mem_append.mp hm1 with hm | hm
    · rcases List.mem_append.mp hm with hm3 | hm3
      · rcases List.mem_append.mp hm3 with hm4 | hm4
        · exact absurd hm4 hb1
        · by_cases hc : (has_crs && py_truthy srs) = true
          · rw [Bool.and_eq_true] at hc
            exact hc
          · rw [if_neg hc] at hm4
            exact absurd hm4 (List.not_mem_nil _)
      · exact absurd hm3 hex1
    · exact absurd hm hin1
  · rintro ⟨h1, h2⟩
    have hc : (has_crs && py_truthy srs) = true := by rw [h1, h2]; rfl
    rw [hcmd]
    constructor
    · refine List.mem_append.mpr (Or.inl (List.mem_append.mpr (Or.inl ?_)))
      refine List.mem_append.mpr (Or.inr ?_)
      rw [if_pos hc]
      exact List.mem_cons_self _ _
    · refine List.mem_append.mpr (Or.inl (List.mem_append.mpr (Or.inl ?_)))
      refine List.mem_append.mpr (Or.inr ?_)
      rw [if_pos hc]
      exact List.mem_cons.mpr (Or.inr (List.mem_cons.mpr (Or.inr (List.mem_cons_self _ _))))
  · intro s hsrs h1 h2
    have hc : (has_crs && py_truthy srs) = true := by rw [h1, h2]; rfl
    refine ⟨[exe, "convert", "--out", outDir],
      (if py_truthy extra = true then ["--extra-fields", extra.getD ""] else []) ++ [input], ?_⟩
    rw [hcmd, if_pos hc, hsrs]
    simp [List.append_assoc, Option.getD]
  · intro hfalse
    have hc : (has_crs && py_truthy srs) = false := by rw [hfalse]; rfl
    rw [hcmd, hc]
    constructor
    · intro hmem
      rcases List.mem_append.mp hmem with hm | hm
      · rcases List.mem_append.mp hm with hm3 | hm3
        · rcases List.mem_append.mp hm3 with hm4 | hm4
          · exact absurd hm4 hb1
          · simp at hm4
        · exact absurd hm3 hex1
      · exact absurd hm hin1
    · intro hmem
      rcases List.mem_append.mp hmem with hm | hm
      · rcases List.mem_append.mp hm with hm3 | hm3
        · rcases List.mem_append.mp hm3 with hm4 | hm4
          · exact absurd hm4 hb2
          · simp at hm4
        · exact absurd hm3 hex2
      · exact absurd hm hin2

/-- Witness for C5 at concrete arguments with CRS metadata detected and a
non-empty requested output CRS. -/
theorem C5_witness :
    (("--srs_out" ∈ build_py3dtiles_cmd "/venv/bin/py3dtiles" "/out" true
        (some "4978") none "/in/cloud.las")
      ∧ ("--pyproj-always-xy" ∈ build_py3dtiles_cmd "/venv/bin/py3dtiles" "/out" true
        (some "4978") none "/in/cloud.las"))
    ↔ (true = true ∧ py_truthy (some "4978") = true) :=
  (C5_crs_flag_policy "/venv/bin/py3dtiles" "/out" true (some "4978") none "/in/cloud.las"
    (by decide) (by decide) (by decide) (by decide) (by decide) (by decide)
    (fun s hs => by simp at hs)).1

/-- C6: whenever the engine executable resolves, the combined engine output
is persisted to the log artifact regardless of outcome; after that, a
nonzero exit code fails with the engine-failure error, whose message
references the log artifact; a zero exit code with no root manifest present
fails with the distinct missing-output error; the two error kinds are never
equal. -/
theorem C6_log_then_distinct_failures :
    ∀ e : Env, (e.exeAdjacent = true ∨ e.exeOnPath = true) →
      (Eff.writeLog e.engineOutput ∈ (convert_las_to_3dtiles e).1)
      ∧ (e.engineExit ≠ 0 →
          (convert_las_to_3dtiles e).2 = Except.error (ConvErr.engineFailed e.engineExit))
      ∧ (e.engineExit = 0 → e.producesTileset = false →
          (convert_las_to_3dtiles e).2 = Except.error ConvErr.missingOutput)
      ∧ (∀ code, ConvErr.engineFailed code ≠ ConvErr.missingOutput)
      ∧ (∀ code, py_endswith (err_message (ConvErr.engineFailed code)) "tiles_log.txt" = true) := by
  intro e hres
  have hresb : (e.exeAdjacent || e.exeOnPath) = true := by
    rcases hres with h | h <;> simp [h]
  refine ⟨?_, ?_, ?_, ?_, ?_⟩
  · unfold convert_las_to_3dtiles
    simp only [hresb, ite_true]
    by_cases hz : e.engineExit = 0
    · by_cases hp : e.producesTileset = true
      · by_cases hra : e.repairARaises = true <;> simp [hz, hp, hra]
      · rw [Bool.not_eq_true] at hp
        simp [hz, hp]
    · simp [hz]
  · intro hz
    unfold convert_las_to_3dtiles
    simp [hresb, hz]
  · intro hz hp
    unfold convert_las_to_3dtiles
    simp [hresb, hz, hp]
  · intro code
    intro h
    exact ConvErr.noConfusion h
  · intro code
    apply py_endswith_concat
    decide

/-- Witness for C6 at an environment whose engine run succeeds (the log is
in the trace and the error kinds are distinct). -/
theorem C6_witness :
    Eff.writeLog baseEnv.engineOutput ∈ (convert_las_to_3dtiles baseEnv).1 :=
  (C6_log_then_distinct_failures baseEnv (Or.inl rfl)).1

/-- C9: when the engine resolves, exits zero and produces the root manifest,
the conversion returns the root manifest path and the repair stage is
entered, irrespective of whether a failure is raised inside the repair stage
(the raise flags of the environment are unconstrained, and a Pass A raise
skips Pass B without affecting the result). -/
theorem C9_repair_failure_swallowed :
    ∀ e : Env, (e.exeAdjacent = true ∨ e.exeOnPath = true) →
      e.engineExit = 0 → e.producesTileset = true →
      (convert_las_to_3dtiles e).2 = Except.ok (py_concat e.outputDir "/tileset.json")
      ∧ Eff.repairA ∈ (convert_las_to_3dtiles e).1 := by
  intro e hres hz hp
  have hresb : (e.exeAdjacent || e.exeOnPath) = true := by
    rcases hres with h | h <;> simp [h]
  constructor
  · unfold convert_las_to_3dtiles
    by_cases hra : e.repairARaises = true <;> simp [hresb, hz, hp, hra]
  · unfold convert_las_to_3dtiles
    by_cases hra : e.repairARaises = true <;> simp [hresb, hz, hp, hra]

/-- Witness for C9 at an environment in which the repair stage raises: the
conversion still returns the root manifest path. -/
theorem C9_witness :
    (convert_las_to_3dtiles raisingRepairEnv).2
      = Except.ok (py_concat raisingRepairEnv.outputDir "/tileset.json") :=
  (C9_repair_failure_swallowed raisingRepairEnv (Or.inl rfl) rfl rfl).1
